import Mathlib

/-!
A verification development for the pretalx schedule subsystem: schedule
versioning (freeze / unfreeze), the schedule diff algorithm, speaker
notification mapping, and predecessor resolution.

Source files embedded:
* `src/pretalx/schedule/selectors.py` — diff engine and notification builder
* `src/pretalx/schedule/actions.py` — `freeze_schedule`
* `src/pretalx/schedule/models/schedule.py` — `Schedule.unfreeze`,
  `Schedule.scheduled_talks`, `Schedule.previous_schedule`

Machine integers are modelled as `Nat`/`Int`; database rows as lists;
querysets as list filters; Python exceptions as an error result paired with the
store at the moment of the raise.
-/

namespace Pretalx

/-- Submission states. Modelled from the spec: the `SubmissionStates` enum
(not among the given sources) "including at least CONFIRMED and DELETED";
all remaining states are collapsed into `other`. -/
inductive SubmissionState where
  | confirmed
  | deleted
  | other
deriving DecidableEq

/-- A submission (external entity, referenced not owned): state and the
ids of its speakers. -/
structure Submission where
  id : Nat
  state : SubmissionState
  speakers : List Nat
deriving DecidableEq

/-- A room, with the name and speaker-facing info text used in move records. -/
structure Room where
  id : Nat
  name : String
  speaker_info : String
deriving DecidableEq

/-- A talk slot row: owned by a schedule, referencing a submission, an
optional room and optional start/end instants, plus the visibility flag. -/
structure TalkSlot where
  id : Nat
  schedule : Nat
  submission : Submission
  room : Option Room
  start : Option Int
  finish : Option Int
  is_visible : Bool
deriving DecidableEq

/-- A schedule row: event id, optional version string, optional published
instant (`none` denotes the working draft). -/
structure Schedule where
  id : Nat
  event : Nat
  version : Option String
  published : Option Int
deriving DecidableEq

/-- An event: only the timezone name is needed by the embedded code. -/
structure Event where
  id : Nat
  timezone : String
deriving DecidableEq

/-- The slot/schedule store: the database state for the schedule app. -/
structure Store where
  events : List Event
  schedules : List Schedule
  slots : List TalkSlot
deriving DecidableEq

/-- The structural identity of a slot: the `(submission, room, start)`
triple used by `values_list('submission', 'room', 'start')`. -/
structure SlotTriple where
  submission : Nat
  room : Option Nat
  start : Option Int
deriving DecidableEq

/-- The `(submission, room, start)` projection of a slot. -/
def tripleOf (s : TalkSlot) : SlotTriple :=
  ⟨s.submission.id, s.room.map Room.id, s.start⟩

/-- Modelled from the spec: `TalkSlot.is_same_slot` (the slot model file is
not among the given sources); two slots are "the same placement" iff they
share `(submission, room, start)` — end time and identity are irrelevant. -/
def TalkSlot.is_same_slot (a b : TalkSlot) : Bool :=
  a.submission.id == b.submission.id
    && a.room.map Room.id == b.room.map Room.id
    && a.start == b.start

/-- Modelled from the spec: `TalkSlot.copy_to_schedule` (the slot model file
is not among the given sources); a deep copy with new identity, same
submission/room/start/end/visibility, owned by the target schedule. -/
def TalkSlot.copy_to_schedule (s : TalkSlot) (target : Nat) (newId : Nat) : TalkSlot :=
  { s with id := newId, schedule := target }

/-- `schedule.talks`: all slot rows owned by the schedule with id `sid`. -/
def talksOf (st : Store) (sid : Nat) : List TalkSlot :=
  st.slots.filter (fun s => s.schedule == sid)

/-- `Schedule.scheduled_talks` (schedule.py): slots with a room, a start,
`is_visible = true`, and a submission not in state DELETED. -/
def scheduled_talks (st : Store) (sched : Schedule) : List TalkSlot :=
  (talksOf st sched.id).filter
    (fun s => s.room.isSome && s.start.isSome && s.is_visible
      && !(s.submission.state == SubmissionState.deleted))

/-- A move record, built exactly as in `_handle_submission_move`
(selectors.py lines 49–56): submission, old/new start rendered in the
schedule's timezone (`astimezone` keeps the instant and attaches the zone,
recorded in `tz`), old/new room name and the new room's speaker info.
The two source slots of the pair are kept for provenance. -/
structure MoveRecord where
  submission : Submission
  old_start : Option Int
  new_start : Option Int
  tz : String
  old_room : Option String
  new_room : Option String
  new_info : Option String
  old_slot : TalkSlot
  new_slot : TalkSlot
deriving DecidableEq

/-- Build the move record of one positional pair, as in selectors.py 49–56. -/
def mkMoveRecord (tz : String) (p : TalkSlot × TalkSlot) : MoveRecord :=
  { submission := p.2.submission
    old_start := p.1.start
    new_start := p.2.start
    tz := tz
    old_room := p.1.room.map Room.name
    new_room := p.2.room.map Room.name
    new_info := p.2.room.map Room.speaker_info
    old_slot := p.1
    new_slot := p.2 }

/-- `_handle_submission_move` (selectors.py 30–57): restrict both sides to
the submission's slots, drop slots with an exact structural counterpart on
the other side, then classify by the signed length difference: excess old
slots (a positive prefix) are canceled, excess new slots are new, and the
remainders pair positionally as moves. Returns `(new, canceled, moved)`. -/
def handle_submission_move (pk : Nat) (old_slots new_slots : List TalkSlot)
    (tz : String) : List TalkSlot × List TalkSlot × List MoveRecord :=
  let all_old := old_slots.filter (fun s => s.submission.id == pk)
  let all_new := new_slots.filter (fun s => s.submission.id == pk)
  let o := all_old.filter (fun s => !(all_new.any (fun t => s.is_same_slot t)))
  let n := all_new.filter (fun s => !(all_old.any (fun t => s.is_same_slot t)))
  let diff : Int := (o.length : Int) - (n.length : Int)
  if 0 < diff then
    ([], o.take diff.toNat, ((o.drop diff.toNat).zip n).map (mkMoveRecord tz))
  else if diff < 0 then
    (n.take (-diff).toNat, [], (o.zip (n.drop (-diff).toNat)).map (mkMoveRecord tz))
  else
    ([], [], (o.zip n).map (mkMoveRecord tz))

/-- Comparison with the null-published row excluded: the Django filter
`published__lt=p` keeps only rows whose published is non-null and `< p`. -/
def publishedLt (a : Option Int) (p : Int) : Bool :=
  match a with
  | some q => q < p
  | none => false

/-- `pubLt a b`: the `-published` ordering ranks `b` strictly above `a`
(null published sorts below any value). -/
def pubLt (a b : Option Int) : Bool :=
  match a, b with
  | none, none => false
  | none, some _ => true
  | some _, none => false
  | some x, some y => x < y

/-- `order_by('-published').first()`: an element of the list whose
published value is maximal (the earliest such element on ties);
`none` exactly when the list is empty. -/
def firstByPublishedDesc : List Schedule → Option Schedule
  | [] => none
  | s :: rest =>
    match firstByPublishedDesc rest with
    | none => some s
    | some b => if pubLt s.published b.published then some b else some s

/-- `Schedule.previous_schedule` (schedule.py 88–94): the event's schedules
other than this one, restricted — when this schedule is published — to those
published strictly earlier, ordered by descending published, first row. -/
def previous_schedule (st : Store) (self : Schedule) : Option Schedule :=
  let qs := st.schedules.filter
    (fun s => s.event == self.event && !(s.id == self.id))
  let qs := match self.published with
    | some p => qs.filter (fun s => publishedLt s.published p)
    | none => qs
  firstByPublishedDesc qs

/-- Python truthiness of an optional string field (`if schedule.version:`):
true iff present and non-empty. -/
def versionTruthy : Option String → Bool
  | some v => !(v == "")
  | none => false

/-- `schedule.tz`: the timezone name of the schedule's event. -/
def tzOf (st : Store) (sched : Schedule) : String :=
  ((st.events.find? (fun e => e.id == sched.event)).map Event.timezone).getD ""

/-- Output of one pass of the comparison loops: the classified lists, the
handled-submission set after the pass, and the trace of submissions for
which a classification branch actually ran (in processing order). -/
structure PassOut where
  new_talks : List TalkSlot
  canceled_talks : List TalkSlot
  moved_talks : List MoveRecord
  handled : List Nat
  trace : List Nat
deriving DecidableEq

/-- The first comparison loop (selectors.py 88–98), over the triples removed
from the old side: a submission no longer present in the new schedule has all
its old slots canceled; one still present goes through move-matching.
Submissions already handled are skipped. -/
def diffPassRemoved (old_slots new_slots : List TalkSlot) (new_subs : List Nat)
    (tz : String) : List SlotTriple → List Nat → PassOut
  | [], h => ⟨[], [], [], h, []⟩
  | e :: rest, h =>
    if e.submission ∈ h then
      diffPassRemoved old_slots new_slots new_subs tz rest h
    else
      let r := diffPassRemoved old_slots new_slots new_subs tz rest (e.submission :: h)
      if e.submission ∈ new_subs then
        let c := handle_submission_move e.submission old_slots new_slots tz
        ⟨c.1 ++ r.new_talks, c.2.1 ++ r.canceled_talks, c.2.2 ++ r.moved_talks,
          r.handled, e.submission :: r.trace⟩
      else
        ⟨r.new_talks,
          old_slots.filter (fun s => s.submission.id == e.submission) ++ r.canceled_talks,
          r.moved_talks, r.handled, e.submission :: r.trace⟩

/-- The second comparison loop (selectors.py 99–109), over the triples added
on the new side: a submission with no prior placement has all its new slots
classified new; one already placed before goes through move-matching.
Submissions already handled are skipped. -/
def diffPassAdded (old_slots new_slots : List TalkSlot) (old_subs : List Nat)
    (tz : String) : List SlotTriple → List Nat → PassOut
  | [], h => ⟨[], [], [], h, []⟩
  | e :: rest, h =>
    if e.submission ∈ h then
      diffPassAdded old_slots new_slots old_subs tz rest h
    else
      let r := diffPassAdded old_slots new_slots old_subs tz rest (e.submission :: h)
      if e.submission ∈ old_subs then
        let c := handle_submission_move e.submission old_slots new_slots tz
        ⟨c.1 ++ r.new_talks, c.2.1 ++ r.canceled_talks, c.2.2 ++ r.moved_talks,
          r.handled, e.submission :: r.trace⟩
      else
        ⟨new_slots.filter (fun s => s.submission.id == e.submission) ++ r.new_talks,
          r.canceled_talks, r.moved_talks, r.handled, e.submission :: r.trace⟩

/-- The result of a schedule comparison. -/
structure ChangeSet where
  count : Nat
  action : String
  new_talks : List TalkSlot
  canceled_talks : List TalkSlot
  moved_talks : List MoveRecord
deriving DecidableEq

/-- `OLD_SET − NEW_SET`: deduplicated old triples with no counterpart among
the new triples (selectors.py 84). -/
def removedEntries (st : Store) (prev sched : Schedule) : List SlotTriple :=
  (((scheduled_talks st prev).map tripleOf).dedup).filter
    (fun t => !(decide (t ∈ ((scheduled_talks st sched).map tripleOf).dedup)))

/-- `NEW_SET − OLD_SET`: deduplicated new triples with no counterpart among
the old triples (selectors.py 85). -/
def addedEntries (st : Store) (prev sched : Schedule) : List SlotTriple :=
  (((scheduled_talks st sched).map tripleOf).dedup).filter
    (fun t => !(decide (t ∈ ((scheduled_talks st prev).map tripleOf).dedup)))

/-- `compare_schedule_with_predecessor` (selectors.py 59–116), instrumented
to also return the trace of submissions processed by the two loops. Without
a predecessor the action is `create`; otherwise both symmetric-difference
passes run over the scheduled talks and the counts are summed. -/
def compareCore (st : Store) (schedule : Schedule) : ChangeSet × List Nat :=
  match previous_schedule st schedule with
  | none => (⟨0, "create", [], [], []⟩, [])
  | some prev =>
    let old_slots := scheduled_talks st prev
    let new_slots := scheduled_talks st schedule
    let old_subs := old_slots.map (fun s => s.submission.id)
    let new_subs := new_slots.map (fun s => s.submission.id)
    let tz := tzOf st schedule
    let p1 := diffPassRemoved old_slots new_slots new_subs tz
      (removedEntries st prev schedule) []
    let p2 := diffPassAdded old_slots new_slots old_subs tz
      (addedEntries st prev schedule) p1.handled
    let nt := p1.new_talks ++ p2.new_talks
    let ct := p1.canceled_talks ++ p2.canceled_talks
    let mt := p1.moved_talks ++ p2.moved_talks
    (⟨nt.length + ct.length + mt.length, "update", nt, ct, mt⟩,
      p1.trace ++ p2.trace)

/-- `compare_schedule_with_predecessor`: the change-set alone. -/
def compare_schedule_with_predecessor (st : Store) (schedule : Schedule) : ChangeSet :=
  (compareCore st schedule).1

/-- The trace of submissions classified during a comparison, in order. -/
def compareTrace (st : Store) (schedule : Schedule) : List Nat :=
  (compareCore st schedule).2

/-- The two visibility passes of `freeze_schedule` (actions.py 39–46) on one
slot of the frozen schedule: first, a placed slot of a confirmed submission
that is not yet visible becomes visible; then a visible slot that is not
(placed and confirmed) becomes invisible. -/
def applyVisibility (s : TalkSlot) : TalkSlot :=
  let s1 :=
    if s.start.isSome && s.submission.state == SubmissionState.confirmed
        && s.is_visible == false then
      { s with is_visible := true }
    else s
  if s1.is_visible
      && !(s1.start.isSome && s1.submission.state == SubmissionState.confirmed) then
    { s1 with is_visible := false }
  else s1

/-- `freeze_schedule` (actions.py 8–64). The raises for a reserved name, an
already-set version, and an empty name come before any mutation, so the store
is returned untouched alongside the error. On success: the schedule is
stamped with `published`/`version`, a fresh empty working draft is created,
the two visibility passes run over the frozen schedule's slots, and every
slot of the frozen schedule is then copied into the new draft. `t` is the
clock value `now()`; `wipId`/`slotIdBase` supply the fresh row ids. Audit
log, notification dispatch, cache invalidation and the export trigger are
external side effects without store footprint. -/
def freeze_schedule (st : Store) (sched : Schedule) (name : String) (t : Int)
    (wipId slotIdBase : Nat) : Store × Except String (Schedule × Schedule) :=
  if name == "wip" || name == "latest" then
    (st, Except.error "Cannot use reserved name for schedule version.")
  else if versionTruthy sched.version then
    (st, Except.error "Cannot freeze schedule version: already versioned.")
  else if name == "" then
    (st, Except.error "Cannot create schedule version without a version name.")
  else
    let frozen : Schedule := { sched with published := some t, version := some name }
    let schedules1 := st.schedules.map
      (fun s => if s.id == sched.id then
        { s with published := some t, version := some name } else s)
    let wip : Schedule :=
      { id := wipId, event := sched.event, version := none, published := none }
    let slots1 := st.slots.map
      (fun s => if s.schedule == sched.id then applyVisibility s else s)
    let talks := slots1.filter (fun s => s.schedule == sched.id)
    let copies := talks.enum.map
      (fun p => p.2.copy_to_schedule wipId (slotIdBase + p.1))
    ({ st with schedules := schedules1 ++ [wip], slots := slots1 ++ copies },
      Except.ok (frozen, wip))

/-- Modelled from the spec: `Event.wip_schedule` (the Event model file is not
among the given sources) — the event's single schedule with a null version,
the mutable working draft. When the store holds none, the embedding reports
an error instead of get-or-create. -/
def event_wip_schedule (st : Store) (eventId : Nat) : Option Schedule :=
  st.schedules.find? (fun s => s.event == eventId && !(versionTruthy s.version))

/-- `Schedule.unfreeze` (schedule.py 42–68): requires a released version;
gathers the working draft's slots for submissions not already in this
schedule together with all of this schedule's slots, copies that union into a
fresh working draft, then deletes the old draft's slots and the old draft.
The versioned schedule itself is returned unchanged. -/
def unfreeze (st : Store) (self : Schedule) (wipId slotIdBase : Nat) :
    Store × Except String (Schedule × Schedule) :=
  if !(versionTruthy self.version) then
    (st, Except.error "Cannot unfreeze schedule version: not released yet.")
  else
    match event_wip_schedule st self.event with
    | none => (st, Except.error "No working draft exists for this event.")
    | some oldWip =>
      let submission_ids := (talksOf st self.id).map (fun s => s.submission.id)
      let talks := (talksOf st oldWip.id).filter
          (fun s => !(submission_ids.contains s.submission.id))
        ++ talksOf st self.id
      let wip : Schedule := ⟨wipId, self.event, none, none⟩
      let copies := talks.enum.map
        (fun p => p.2.copy_to_schedule wipId (slotIdBase + p.1))
      let slots2 := (st.slots ++ copies).filter (fun s => !(s.schedule == oldWip.id))
      let schedules2 := (st.schedules ++ [wip]).filter (fun s => !(s.id == oldWip.id))
      ({ st with schedules := schedules2, slots := slots2 }, Except.ok (self, wip))

/-- A speaker's notification entry: newly assigned slots and move records. -/
structure SpeakerNote where
  create : List TalkSlot
  update : List MoveRecord
deriving DecidableEq

/-- The incremental mapping construction of `speakers_with_changed_slots`
(selectors.py 20–26): each new talk is appended under `create` for each of
its speakers, each move record under `update` for each of its speakers. The
defaultdict is modelled as a total function defaulting to empty lists. -/
def build_speaker_changes (ch : ChangeSet) : Nat → SpeakerNote :=
  let m0 : Nat → SpeakerNote := fun _ => ⟨[], []⟩
  let m1 := ch.new_talks.foldl
    (fun m talk => fun sp =>
      if talk.submission.speakers.contains sp then
        ⟨(m sp).create ++ [talk], (m sp).update⟩
      else m sp) m0
  ch.moved_talks.foldl
    (fun m mv => fun sp =>
      if mv.submission.speakers.contains sp then
        ⟨(m sp).create, (m sp).update ++ [mv]⟩
      else m sp) m1

/-- `speakers_with_changed_slots` (selectors.py 1–27): on a first release
every speaker with a slot in the schedule gets all their slots under
`create`; when the whole change count is cancellations the mapping is empty;
otherwise the incremental construction runs. The mapping is modelled as a
total function from speaker id, absent speakers mapping to empty entries. -/
def speakers_with_changed_slots (st : Store) (sched : Schedule) : Nat → SpeakerNote :=
  let changes := compare_schedule_with_predecessor st sched
  if changes.action == "create" then
    fun sp =>
      if (talksOf st sched.id).any (fun s => s.submission.speakers.contains sp) then
        ⟨(talksOf st sched.id).filter (fun s => s.submission.speakers.contains sp), []⟩
      else ⟨[], []⟩
  else if changes.count == changes.canceled_talks.length then
    fun _ => ⟨[], []⟩
  else build_speaker_changes changes

/-- Spec-language rendering of move-matching's first step, for comparison
with the source's `is_same_slot` filter: the old slots of the submission
with no exact `(submission, room, start)` counterpart among its new slots. -/
def specUnmatchedOld (pk : Nat) (oldL newL : List TalkSlot) : List TalkSlot :=
  (oldL.filter (fun s => s.submission.id == pk)).filter
    (fun s => decide (∀ t ∈ newL.filter (fun u : TalkSlot => u.submission.id == pk),
      tripleOf s ≠ tripleOf t))

/-- Spec-language rendering of move-matching's first step on the new side:
the new slots of the submission with no exact `(submission, room, start)`
counterpart among its old slots. -/
def specUnmatchedNew (pk : Nat) (oldL newL : List TalkSlot) : List TalkSlot :=
  (newL.filter (fun s => s.submission.id == pk)).filter
    (fun s => decide (∀ t ∈ oldL.filter (fun u : TalkSlot => u.submission.id == pk),
      tripleOf s ≠ tripleOf t))

/-- The copyable content of a slot: everything but its identity and owning
schedule — what "a copy of the slot" preserves. -/
def slotContent (s : TalkSlot) :
    Submission × Option Room × Option Int × Option Int × Bool :=
  (s.submission, s.room, s.start, s.finish, s.is_visible)

/-- Fixture: a confirmed submission with one speaker. -/
def fxSub (i : Nat) : Submission := ⟨i, SubmissionState.confirmed, [100 + i]⟩

/-- Fixture: a room. -/
def fxRoom (i : Nat) : Room := ⟨i, "room", "hints"⟩

/-- Fixture: a visible, placed slot. -/
def fxSlot (id sched sub room : Nat) (t : Int) : TalkSlot :=
  ⟨id, sched, fxSub sub, some (fxRoom room), some t, some (t + 1), true⟩

/-- Fixture: a one-schedule store with no predecessor candidates. -/
def fxStore0 : Store := ⟨[⟨0, "UTC"⟩], [⟨1, 0, none, none⟩], []⟩

/-- Fixture: the working draft of `fxStore0`. -/
def fxSched0 : Schedule := ⟨1, 0, none, none⟩

/-- Fixture: a working draft to freeze. -/
def fxDraft : Schedule := ⟨3, 0, none, none⟩

/-- Fixture: a store with one released schedule and a draft holding slots in
all four visibility configurations. -/
def fxStoreF : Store :=
  ⟨[⟨0, "UTC"⟩], [⟨1, 0, some "v1", some 5⟩, fxDraft],
   [fxSlot 1 1 1 1 10,
    ⟨2, 3, fxSub 1, some (fxRoom 1), some 10, some 11, false⟩,
    ⟨3, 3, fxSub 2, some (fxRoom 1), none, none, true⟩,
    ⟨4, 3, ⟨9, SubmissionState.other, []⟩, some (fxRoom 1), some 12, none, true⟩]⟩

/-- Fixture: the released schedule of `fxStoreU`. -/
def fxVers : Schedule := ⟨1, 0, some "v1", some 5⟩

/-- Fixture: a later released schedule, for predecessor resolution. -/
def fxSchedX : Schedule := ⟨2, 0, some "v2", some 10⟩

/-- Fixture: the spec's comparison scenario — versions v1 and v2 of one
event, where submission 1 is unchanged, submission 2 moves room, and
submission 3 is newly scheduled. -/
def fxStoreC : Store :=
  ⟨[⟨0, "UTC"⟩], [⟨1, 0, some "v1", some 5⟩, ⟨2, 0, some "v2", some 10⟩],
   [fxSlot 1 1 1 1 10, fxSlot 2 1 2 2 11,
    fxSlot 3 2 1 1 10, fxSlot 4 2 2 3 11, fxSlot 5 2 3 1 12]⟩

/-- Fixture: a store for unfreezing — schedule 1 is released with
submissions 1 and 2; the draft (schedule 3) kept submission 1 and gained
submission 5 after the release. -/
def fxStoreU : Store :=
  ⟨[⟨0, "UTC"⟩], [fxVers, fxDraft],
   [fxSlot 1 1 1 1 10, fxSlot 2 1 2 2 11,
    fxSlot 3 3 1 1 10, fxSlot 4 3 5 1 15]⟩

section Lemmas

/-- The source's structural slot comparison agrees with equality of the
`(submission, room, start)` triples. -/
theorem is_same_slot_iff (a b : TalkSlot) :
    a.is_same_slot b = true ↔ tripleOf a = tripleOf b := by
  simp [TalkSlot.is_same_slot, tripleOf, SlotTriple.mk.injEq, Bool.and_eq_true,
    beq_iff_eq, and_assoc]

/-- The `is_same_slot` filters inside `handle_submission_move` compute the
spec-language unmatched lists. -/
theorem handle_submission_move_eq (pk : Nat) (oldL newL : List TalkSlot)
    (tz : String) :
    handle_submission_move pk oldL newL tz =
      (if (specUnmatchedNew pk oldL newL).length
          < (specUnmatchedOld pk oldL newL).length then
        ([], (specUnmatchedOld pk oldL newL).take
            ((specUnmatchedOld pk oldL newL).length
              - (specUnmatchedNew pk oldL newL).length),
          (((specUnmatchedOld pk oldL newL).drop
            ((specUnmatchedOld pk oldL newL).length
              - (specUnmatchedNew pk oldL newL).length)).zip
            (specUnmatchedNew pk oldL newL)).map (mkMoveRecord tz))
      else if (specUnmatchedOld pk oldL newL).length
          < (specUnmatchedNew pk oldL newL).length then
        ((specUnmatchedNew pk oldL newL).take
            ((specUnmatchedNew pk oldL newL).length
              - (specUnmatchedOld pk oldL newL).length), [],
          ((specUnmatchedOld pk oldL newL).zip
            ((specUnmatchedNew pk oldL newL).drop
              ((specUnmatchedNew pk oldL newL).length
                - (specUnmatchedOld pk oldL newL).length))).map (mkMoveRecord tz))
      else
        ([], [], ((specUnmatchedOld pk oldL newL).zip
          (specUnmatchedNew pk oldL newL)).map (mkMoveRecord tz))) := by
  have key : ∀ (l : List TalkSlot) (s : TalkSlot),
      (!(l.any (fun t => s.is_same_slot t)))
        = decide (∀ t ∈ l, tripleOf s ≠ tripleOf t) := by
    intro l s
    cases hb : l.any (fun t => s.is_same_slot t) with
    | false =>
      have hall := List.any_eq_false.mp hb
      simp only [hb, Bool.not_false]
      symm
      apply decide_eq_true
      intro t ht he
      exact absurd ((is_same_slot_iff s t).mpr he) (by simpa using hall t ht)
    | true =>
      obtain ⟨t, ht, hs⟩ := List.any_eq_true.mp hb
      simp only [hb, Bool.not_true]
      symm
      apply decide_eq_false
      intro hall
      exact hall t ht ((is_same_slot_iff s t).mp hs)
  have hfo : (oldL.filter (fun s => s.submission.id == pk)).filter
      (fun s => !((newL.filter (fun t => t.submission.id == pk)).any
        (fun t => s.is_same_slot t)))
      = specUnmatchedOld pk oldL newL := by
    unfold specUnmatchedOld
    exact List.filter_congr (fun s _ => key _ s)
  have hfn : (newL.filter (fun s => s.submission.id == pk)).filter
      (fun s => !((oldL.filter (fun t => t.submission.id == pk)).any
        (fun t => s.is_same_slot t)))
      = specUnmatchedNew pk oldL newL := by
    unfold specUnmatchedNew
    exact List.filter_congr (fun s _ => key _ s)
  show (let all_old := oldL.filter (fun s => s.submission.id == pk)
    let all_new := newL.filter (fun s => s.submission.id == pk)
    let o := all_old.filter (fun s => !(all_new.any (fun t => s.is_same_slot t)))
    let n := all_new.filter (fun s => !(all_old.any (fun t => s.is_same_slot t)))
    let diff : Int := (o.length : Int) - (n.length : Int)
    if 0 < diff then
      ([], o.take diff.toNat, ((o.drop diff.toNat).zip n).map (mkMoveRecord tz))
    else if diff < 0 then
      (n.take (-diff).toNat, [], (o.zip (n.drop (-diff).toNat)).map (mkMoveRecord tz))
    else
      ([], [], (o.zip n).map (mkMoveRecord tz))) = _
  simp only
  rw [hfo, hfn]
  set o := specUnmatchedOld pk oldL newL with ho
  set n := specUnmatchedNew pk oldL newL with hn
  by_cases h1 : n.length < o.length
  · have hpos : (0 : Int) < (o.length : Int) - (n.length : Int) := by
      omega
    have htn : ((o.length : Int) - (n.length : Int)).toNat
        = o.length - n.length := by omega
    simp only [if_pos hpos, if_pos h1, htn]
  · by_cases h2 : o.length < n.length
    · have hneg : ¬ ((0 : Int) < (o.length : Int) - (n.length : Int)) := by omega
      have hlt : ((o.length : Int) - (n.length : Int)) < 0 := by omega
      have htn : (-((o.length : Int) - (n.length : Int))).toNat
          = n.length - o.length := by omega
      simp only [if_neg hneg, if_pos hlt, if_neg h1, if_pos h2, htn]
    · have heq : o.length = n.length := by omega
      have hneg : ¬ ((0 : Int) < (o.length : Int) - (n.length : Int)) := by omega
      have hneg2 : ¬ (((o.length : Int) - (n.length : Int)) < 0) := by omega
      simp only [if_neg hneg, if_neg hneg2, if_neg h1, if_neg h2]

end Lemmas

/-- C1: move-matching first removes, from both sides, every slot with an
exact `(submission, room, start)` counterpart on the other side; then with
`diff = len(old_unmatched) - len(new_unmatched)`, if `diff > 0` the first
`diff` old slots are canceled and the rest pair positionally with all new
slots as moves; if `diff < 0` the first `|diff|` new slots are new and the
rest pair positionally with all old slots as moves; if `diff == 0` all old
slots pair positionally with all new slots as moves. -/
theorem claim_c1_move_matching (pk : Nat) (oldL newL : List TalkSlot)
    (tz : String) :
    ((specUnmatchedNew pk oldL newL).length
        < (specUnmatchedOld pk oldL newL).length →
      handle_submission_move pk oldL newL tz =
        ([], (specUnmatchedOld pk oldL newL).take
            ((specUnmatchedOld pk oldL newL).length
              - (specUnmatchedNew pk oldL newL).length),
          (((specUnmatchedOld pk oldL newL).drop
            ((specUnmatchedOld pk oldL newL).length
              - (specUnmatchedNew pk oldL newL).length)).zip
            (specUnmatchedNew pk oldL newL)).map (mkMoveRecord tz)))
    ∧ ((specUnmatchedOld pk oldL newL).length
        < (specUnmatchedNew pk oldL newL).length →
      handle_submission_move pk oldL newL tz =
        ((specUnmatchedNew pk oldL newL).take
            ((specUnmatchedNew pk oldL newL).length
              - (specUnmatchedOld pk oldL newL).length), [],
          ((specUnmatchedOld pk oldL newL).zip
            ((specUnmatchedNew pk oldL newL).drop
              ((specUnmatchedNew pk oldL newL).length
                - (specUnmatchedOld pk oldL newL).length))).map (mkMoveRecord tz)))
    ∧ ((specUnmatchedOld pk oldL newL).length
        = (specUnmatchedNew pk oldL newL).length →
      handle_submission_move pk oldL newL tz =
        ([], [], ((specUnmatchedOld pk oldL newL).zip
          (specUnmatchedNew pk oldL newL)).map (mkMoveRecord tz))) := by
  refine ⟨fun h1 => ?_, fun h2 => ?_, fun h3 => ?_⟩
  · rw [handle_submission_move_eq]
    simp only [if_pos h1]
  · rw [handle_submission_move_eq]
    have : ¬ ((specUnmatchedNew pk oldL newL).length
        < (specUnmatchedOld pk oldL newL).length) := by omega
    simp only [if_neg this, if_pos h2]
  · rw [handle_submission_move_eq]
    have hx : ¬ ((specUnmatchedNew pk oldL newL).length
        < (specUnmatchedOld pk oldL newL).length) := by omega
    have hy : ¬ ((specUnmatchedOld pk oldL newL).length
        < (specUnmatchedNew pk oldL newL).length) := by omega
    simp only [if_neg hx, if_neg hy]

/-- C5: conservation of the unmatched slots — the number of unmatched old
slots equals canceled plus moved, and the number of unmatched new slots
equals new plus moved, for every submission processed by move-matching. -/
theorem claim_c5_conservation (pk : Nat) (oldL newL : List TalkSlot)
    (tz : String) :
    (specUnmatchedOld pk oldL newL).length
        = (handle_submission_move pk oldL newL tz).2.1.length
          + (handle_submission_move pk oldL newL tz).2.2.length
    ∧ (specUnmatchedNew pk oldL newL).length
        = (handle_submission_move pk oldL newL tz).1.length
          + (handle_submission_move pk oldL newL tz).2.2.length := by
  rw [handle_submission_move_eq]
  set o := specUnmatchedOld pk oldL newL with ho
  set n := specUnmatchedNew pk oldL newL with hn
  by_cases h1 : n.length < o.length
  · simp only [if_pos h1, List.length_map, List.length_zip, List.length_take,
      List.length_drop, List.length_nil]
    omega
  · by_cases h2 : o.length < n.length
    · simp only [if_neg h1, if_pos h2, List.length_map, List.length_zip,
        List.length_take, List.length_drop, List.length_nil]
      omega
    · simp only [if_neg h1, if_neg h2, List.length_map, List.length_zip,
        List.length_nil]
      omega

/-- C7: comparing a schedule that has no predecessor yields the `create`
action with no slot-level change detail. -/
theorem claim_c7_first_release (st : Store) (sched : Schedule)
    (h : previous_schedule st sched = none) :
    compare_schedule_with_predecessor st sched = ⟨0, "create", [], [], []⟩ := by
  unfold compare_schedule_with_predecessor compareCore
  rw [h]

/-- The net effect of the two visibility passes on one slot: visible exactly
when placed and confirmed, regardless of prior visibility. -/
theorem applyVisibility_is_visible (x : TalkSlot) :
    (applyVisibility x).is_visible
      = (x.start.isSome && x.submission.state == SubmissionState.confirmed) := by
  unfold applyVisibility
  cases hs : x.start.isSome <;>
    cases hc : x.submission.state == SubmissionState.confirmed <;>
      cases hv : x.is_visible <;>
        simp [hs, hc, hv]

/-- The visibility passes touch only the `is_visible` flag. -/
theorem applyVisibility_fields (x : TalkSlot) :
    (applyVisibility x).schedule = x.schedule
    ∧ (applyVisibility x).start = x.start
    ∧ (applyVisibility x).submission = x.submission := by
  unfold applyVisibility
  cases hs : x.start.isSome <;>
    cases hc : x.submission.state == SubmissionState.confirmed <;>
      cases hv : x.is_visible <;>
        simp [hs, hc, hv]

/-- C3: freeze called with an empty name, a reserved name (`wip`/`latest`),
or on an already-versioned schedule fails with an error and mutates nothing:
the store — in particular every schedule's version/published and the slot
set — is returned unchanged. -/
theorem claim_c3_freeze_validation (st : Store) (sched : Schedule)
    (name : String) (t : Int) (wipId slotIdBase : Nat)
    (h : name = "wip" ∨ name = "latest" ∨ name = ""
      ∨ versionTruthy sched.version = true) :
    (freeze_schedule st sched name t wipId slotIdBase).1 = st
    ∧ (freeze_schedule st sched name t wipId slotIdBase).1.schedules = st.schedules
    ∧ (freeze_schedule st sched name t wipId slotIdBase).1.slots = st.slots
    ∧ ∃ e, (freeze_schedule st sched name t wipId slotIdBase).2
        = Except.error e := by
  have main : (freeze_schedule st sched name t wipId slotIdBase).1 = st
      ∧ ∃ e, (freeze_schedule st sched name t wipId slotIdBase).2
        = Except.error e := by
    unfold freeze_schedule
    by_cases h1 : (name == "wip" || name == "latest") = true
    · simp [h1]
    · by_cases h2 : versionTruthy sched.version = true
      · simp [h1, h2]
      · have h3 : name = "" := by
          rcases h with h | h | h | h
          · exact absurd (by simp [h]) h1
          · exact absurd (by simp [h]) h1
          · exact h
          · exact absurd h h2
        simp [h1, h2, h3]
  exact ⟨main.1, by rw [main.1], by rw [main.1], main.2⟩

/-- C2: after a successful freeze, every slot of the frozen schedule is
visible iff it has a start and its submission is CONFIRMED, regardless of
its visibility before the freeze. (`wipId ≠ sched.id`: the fresh draft's id
is not the frozen schedule's id.) -/
theorem claim_c2_visibility_after_freeze (st : Store) (sched : Schedule)
    (name : String) (t : Int) (wipId slotIdBase : Nat)
    (hok : ∃ r, (freeze_schedule st sched name t wipId slotIdBase).2
      = Except.ok r)
    (hw : wipId ≠ sched.id) :
    ∀ s ∈ (freeze_schedule st sched name t wipId slotIdBase).1.slots,
      s.schedule = sched.id →
      (s.is_visible = true
        ↔ s.start.isSome = true
          ∧ s.submission.state = SubmissionState.confirmed) := by
  unfold freeze_schedule at hok ⊢
  by_cases h1 : (name == "wip" || name == "latest") = true
  · simp [h1] at hok
  · by_cases h2 : versionTruthy sched.version = true
    · simp [h1, h2] at hok
    · by_cases h3 : (name == "") = true
      · simp [h1, h2, h3] at hok
      · simp only [h1, h2, h3, Bool.false_eq_true, if_false]
        intro s hs hsched
        simp only [List.mem_append] at hs
        rcases hs with hs | hs
        · obtain ⟨x, hx, rfl⟩ := List.mem_map.mp hs
          by_cases hxs : (x.schedule == sched.id) = true
          · simp only [hxs, if_true]
            obtain ⟨hf1, hf2, hf3⟩ := applyVisibility_fields x
            rw [applyVisibility_is_visible x, hf2, hf3]
            cases hst : x.start.isSome <;>
              cases hc : x.submission.state == SubmissionState.confirmed <;>
                simp_all
          · simp only [hxs, Bool.false_eq_true, if_false] at hsched ⊢
            exact absurd (by simpa using hsched) (by simpa using hxs)
        · obtain ⟨p, hp, rfl⟩ := List.mem_map.mp hs
          exact absurd hsched (by simpa [TalkSlot.copy_to_schedule] using hw)

/-- Witness for C3: freezing under the reserved name `wip` errors and
returns the store untouched. -/
theorem claim_c3_witness :
    ("wip" = "wip" ∨ "wip" = "latest" ∨ "wip" = ""
      ∨ versionTruthy fxSched0.version = true)
    ∧ ((freeze_schedule fxStore0 fxSched0 "wip" 0 9 10).1 = fxStore0
      ∧ (freeze_schedule fxStore0 fxSched0 "wip" 0 9 10).1.schedules
          = fxStore0.schedules
      ∧ (freeze_schedule fxStore0 fxSched0 "wip" 0 9 10).1.slots = fxStore0.slots
      ∧ ∃ e, (freeze_schedule fxStore0 fxSched0 "wip" 0 9 10).2
          = Except.error e) :=
  ⟨Or.inl rfl,
    claim_c3_freeze_validation fxStore0 fxSched0 "wip" 0 9 10 (Or.inl rfl)⟩

/-- Witness for C2: freezing `fxStoreF`'s draft succeeds, and the formerly
invisible, placed-and-confirmed slot 2 is visible afterwards. -/
theorem claim_c2_witness :
    (∃ r, (freeze_schedule fxStoreF fxDraft "v3" 99 7 100).2 = Except.ok r)
    ∧ (7 ≠ fxDraft.id)
    ∧ ((⟨2, 3, fxSub 1, some (fxRoom 1), some 10, some 11, true⟩ : TalkSlot)
        ∈ (freeze_schedule fxStoreF fxDraft "v3" 99 7 100).1.slots)
    ∧ ((true : Bool) = true
        ↔ (some (10 : Int)).isSome = true
          ∧ (fxSub 1).state = SubmissionState.confirmed) := by
  refine ⟨⟨_, rfl⟩, by decide, by decide, ?_⟩
  exact claim_c2_visibility_after_freeze fxStoreF fxDraft "v3" 99 7 100
    ⟨_, rfl⟩ (by decide)
    ⟨2, 3, fxSub 1, some (fxRoom 1), some 10, some 11, true⟩
    (by decide) (by decide)

/-- `pubLt` is irreflexive. -/
theorem pubLt_irrefl (a : Option Int) : pubLt a a = false := by
  cases a <;> simp [pubLt]

/-- `pubLt` is asymmetric. -/
theorem pubLt_asymm (a b : Option Int) (h : pubLt a b = true) :
    pubLt b a = false := by
  cases a <;> cases b <;> simp_all [pubLt]
  omega

/-- Negative transitivity of `pubLt` (from totality of the order). -/
theorem pubLt_neg_trans (a b c : Option Int)
    (h1 : pubLt a b = false) (h2 : pubLt b c = false) :
    pubLt a c = false := by
  cases a <;> cases b <;> cases c <;> simp_all [pubLt]
  omega

/-- `order_by('-published').first()` returns nothing exactly on an empty
queryset. -/
theorem firstByPublishedDesc_eq_none (l : List Schedule) :
    firstByPublishedDesc l = none ↔ l = [] := by
  cases l with
  | nil => simp [firstByPublishedDesc]
  | cons s rest =>
    simp only [firstByPublishedDesc]
    cases h' : firstByPublishedDesc rest
    · simp only [h']
      simp
    · simp only [h']
      split <;> simp

/-- `order_by('-published').first()` returns a member whose published value
no other member exceeds. -/
theorem firstByPublishedDesc_mem_max (l : List Schedule) (r : Schedule)
    (h : firstByPublishedDesc l = some r) :
    r ∈ l ∧ ∀ c ∈ l, pubLt r.published c.published = false := by
  induction l generalizing r with
  | nil => cases h
  | cons s rest ih =>
    simp only [firstByPublishedDesc] at h
    cases h' : firstByPublishedDesc rest with
    | none =>
      simp only [h'] at h
      have hre : rest = [] := (firstByPublishedDesc_eq_none rest).mp h'
      subst hre
      have hrs : r = s := by injection h with h; exact h.symm
      subst hrs
      refine ⟨List.mem_singleton_self r, ?_⟩
      intro c hc
      rw [List.mem_singleton.mp hc]
      exact pubLt_irrefl r.published
    | some b =>
      simp only [h'] at h
      by_cases hlt : pubLt s.published b.published = true
      · rw [if_pos hlt] at h
        have hrb : r = b := by injection h with h; exact h.symm
        subst hrb
        obtain ⟨hm, hmax⟩ := ih r h'
        refine ⟨List.mem_cons_of_mem s hm, ?_⟩
        intro c hc
        rcases List.mem_cons.mp hc with hc | hc
        · rw [hc]
          exact pubLt_asymm s.published r.published hlt
        · exact hmax c hc
      · rw [if_neg hlt] at h
        have hrs : r = s := by injection h with h; exact h.symm
        subst hrs
        obtain ⟨hm, hmax⟩ := ih b h'
        refine ⟨List.mem_cons_self r rest, ?_⟩
        intro c hc
        rcases List.mem_cons.mp hc with hc | hc
        · rw [hc]
          exact pubLt_irrefl r.published
        · exact pubLt_neg_trans r.published b.published c.published
            (by cases hx : pubLt r.published b.published
                · rfl
                · exact absurd hx hlt)
            (hmax c hc)

/-- `publishedLt` holds exactly on non-null values strictly below the bound. -/
theorem publishedLt_iff (a : Option Int) (p : Int) :
    publishedLt a p = true ↔ ∃ q, a = some q ∧ q < p := by
  cases a <;> simp [publishedLt]

/-- C10: the predecessor of a published schedule is an event sibling with
the greatest published timestamp strictly below its own; the predecessor of
the working draft (null published, all siblings published) is the event's
most recently published schedule; in both cases it is `none` exactly when
no candidate exists. -/
theorem claim_c10_previous_schedule (st : Store) (self : Schedule) :
    (∀ p, self.published = some p →
      ((previous_schedule st self = none
        ↔ st.schedules.filter (fun s => (s.event == self.event
            && !(s.id == self.id)) && publishedLt s.published p) = [])
      ∧ ∀ r, previous_schedule st self = some r →
          r ∈ st.schedules.filter (fun s => (s.event == self.event
            && !(s.id == self.id)) && publishedLt s.published p)
          ∧ ∃ q, r.published = some q ∧ q < p
            ∧ ∀ c ∈ st.schedules.filter (fun s => (s.event == self.event
                && !(s.id == self.id)) && publishedLt s.published p),
              ∀ qc, c.published = some qc → qc ≤ q))
    ∧ (self.published = none →
      (∀ s ∈ st.schedules, s.event = self.event → s.id ≠ self.id →
        s.published.isSome = true) →
      ((previous_schedule st self = none
        ↔ st.schedules.filter (fun s => s.event == self.event
            && !(s.id == self.id)) = [])
      ∧ ∀ r, previous_schedule st self = some r →
          r ∈ st.schedules.filter (fun s => s.event == self.event
            && !(s.id == self.id))
          ∧ ∃ q, r.published = some q
            ∧ ∀ c ∈ st.schedules.filter (fun s => s.event == self.event
                && !(s.id == self.id)),
              ∀ qc, c.published = some qc → qc ≤ q)) := by
  constructor
  · intro p hp
    have hq : previous_schedule st self
        = firstByPublishedDesc (st.schedules.filter
          (fun s => (s.event == self.event && !(s.id == self.id))
            && publishedLt s.published p)) := by
      simp only [previous_schedule, hp]
      rw [List.filter_filter]
      have hpred : (fun s : Schedule => publishedLt s.published p
            && (s.event == self.event && !(s.id == self.id)))
          = (fun s : Schedule => (s.event == self.event && !(s.id == self.id))
            && publishedLt s.published p) :=
        funext (fun s => Bool.and_comm _ _)
      rw [hpred]
    constructor
    · rw [hq, firstByPublishedDesc_eq_none]
    · intro r hr
      rw [hq] at hr
      obtain ⟨hm, hmax⟩ := firstByPublishedDesc_mem_max _ r hr
      have hflt := List.of_mem_filter hm
      have hpl : publishedLt r.published p = true := by
        simp only [Bool.and_eq_true] at hflt
        exact hflt.2
      obtain ⟨q, hqe, hqlt⟩ := (publishedLt_iff r.published p).mp hpl
      refine ⟨hm, q, hqe, hqlt, ?_⟩
      intro c hc qc hqc
      have := hmax c hc
      rw [hqe, hqc] at this
      simpa [pubLt] using this
  · intro hp hall
    have hq : previous_schedule st self
        = firstByPublishedDesc (st.schedules.filter
          (fun s => s.event == self.event && !(s.id == self.id))) := by
      simp only [previous_schedule, hp]
    constructor
    · rw [hq, firstByPublishedDesc_eq_none]
    · intro r hr
      rw [hq] at hr
      obtain ⟨hm, hmax⟩ := firstByPublishedDesc_mem_max _ r hr
      have hflt := List.of_mem_filter hm
      simp only [Bool.and_eq_true, beq_iff_eq, Bool.not_eq_true',
        beq_eq_false_iff_ne] at hflt
      have hrs : r.published.isSome = true :=
        hall r (List.mem_of_mem_filter hm) hflt.1 hflt.2
      obtain ⟨q, hqe⟩ := Option.isSome_iff_exists.mp hrs
      refine ⟨hm, q, hqe, ?_⟩
      intro c hc qc hqc
      have := hmax c hc
      rw [hqe, hqc] at this
      simpa [pubLt] using this

/-- Witness for C10: in `fxStoreU`, a schedule published at 10 resolves its
predecessor to the schedule published at 5; the unpublished draft is not a
candidate. -/
theorem claim_c10_witness :
    fxSchedX.published = some 10
    ∧ previous_schedule fxStoreU fxSchedX = some fxVers
    ∧ (fxVers ∈ fxStoreU.schedules.filter
        (fun s => (s.event == fxSchedX.event && !(s.id == fxSchedX.id))
          && publishedLt s.published 10)
      ∧ ∃ q, fxVers.published = some q ∧ q < 10
        ∧ ∀ c ∈ fxStoreU.schedules.filter
            (fun s => (s.event == fxSchedX.event && !(s.id == fxSchedX.id))
              && publishedLt s.published 10),
          ∀ qc, c.published = some qc → qc ≤ q) := by
  refine ⟨rfl, by decide, ?_⟩
  exact ((claim_c10_previous_schedule fxStoreU fxSchedX).1 10 rfl).2
    fxVers (by decide)

/-- Invariant of the removed-side pass: the handled set afterwards is the
initial set plus the trace; the trace has no duplicates and contains exactly
the submissions of the entries not initially handled. -/
theorem diffPassRemoved_spec (old_slots new_slots : List TalkSlot)
    (new_subs : List Nat) (tz : String) :
    ∀ (entries : List SlotTriple) (h : List Nat),
      (∀ x, x ∈ (diffPassRemoved old_slots new_slots new_subs tz entries h).handled
        ↔ (x ∈ h
          ∨ x ∈ (diffPassRemoved old_slots new_slots new_subs tz entries h).trace))
      ∧ (diffPassRemoved old_slots new_slots new_subs tz entries h).trace.Nodup
      ∧ (∀ x, x ∈ (diffPassRemoved old_slots new_slots new_subs tz entries h).trace
        ↔ (x ∉ h ∧ ∃ e ∈ entries, e.submission = x)) := by
  intro entries
  induction entries with
  | nil =>
    intro h
    simp [diffPassRemoved]
  | cons e rest ih =>
    intro h
    by_cases hmem : e.submission ∈ h
    · have hred : diffPassRemoved old_slots new_slots new_subs tz (e :: rest) h
          = diffPassRemoved old_slots new_slots new_subs tz rest h := by
        simp only [diffPassRemoved, if_pos hmem]
      rw [hred]
      obtain ⟨ih1, ih2, ih3⟩ := ih h
      refine ⟨ih1, ih2, ?_⟩
      intro x
      rw [ih3 x]
      constructor
      · rintro ⟨hxh, e', he', hx⟩
        exact ⟨hxh, e', List.mem_cons_of_mem e he', hx⟩
      · rintro ⟨hxh, e', he', hx⟩
        rcases List.mem_cons.mp he' with rfl | he'
        · exact absurd (hx ▸ hmem) hxh
        · exact ⟨hxh, e', he', hx⟩
    · have hh : (diffPassRemoved old_slots new_slots new_subs tz (e :: rest) h).handled
          = (diffPassRemoved old_slots new_slots new_subs tz rest
            (e.submission :: h)).handled := by
        simp only [diffPassRemoved, if_neg hmem]
        by_cases hin : e.submission ∈ new_subs
        · simp only [if_pos hin]
        · simp only [if_neg hin]
      have ht : (diffPassRemoved old_slots new_slots new_subs tz (e :: rest) h).trace
          = e.submission :: (diffPassRemoved old_slots new_slots new_subs tz rest
            (e.submission :: h)).trace := by
        simp only [diffPassRemoved, if_neg hmem]
        by_cases hin : e.submission ∈ new_subs
        · simp only [if_pos hin]
        · simp only [if_neg hin]
      obtain ⟨ih1, ih2, ih3⟩ := ih (e.submission :: h)
      rw [hh, ht]
      refine ⟨?_, ?_, ?_⟩
      · intro x
        rw [ih1 x]
        constructor
        · rintro (hx | hx)
          · rcases List.mem_cons.mp hx with rfl | hx
            · exact Or.inr (List.mem_cons_self _ _)
            · exact Or.inl hx
          · exact Or.inr (List.mem_cons_of_mem _ hx)
        · rintro (hx | hx)
          · exact Or.inl (List.mem_cons_of_mem _ hx)
          · rcases List.mem_cons.mp hx with rfl | hx
            · exact Or.inl (List.mem_cons_self _ _)
            · exact Or.inr hx
      · refine List.nodup_cons.mpr ⟨?_, ih2⟩
        intro hc
        exact ((ih3 e.submission).mp hc).1 (List.mem_cons_self _ _)
      · intro x
        constructor
        · intro hx
          rcases List.mem_cons.mp hx with rfl | hx
          · exact ⟨hmem, e, List.mem_cons_self _ _, rfl⟩
          · obtain ⟨hxh, e', he', hes⟩ := (ih3 x).mp hx
            exact ⟨fun hc => hxh (List.mem_cons_of_mem _ hc), e',
              List.mem_cons_of_mem _ he', hes⟩
        · rintro ⟨hxh, e', he', hes⟩
          rcases List.mem_cons.mp he' with rfl | he'
          · rw [← hes]
            exact List.mem_cons_self _ _
          · by_cases hxe : x = e.submission
            · rw [hxe]
              exact List.mem_cons_self _ _
            · refine List.mem_cons_of_mem _ ((ih3 x).mpr ⟨?_, e', he', hes⟩)
              intro hc
              rcases List.mem_cons.mp hc with hc | hc
              · exact hxe hc
              · exact hxh hc

/-- Invariant of the added-side pass: same statement as for the removed-side
pass. -/
theorem diffPassAdded_spec (old_slots new_slots : List TalkSlot)
    (old_subs : List Nat) (tz : String) :
    ∀ (entries : List SlotTriple) (h : List Nat),
      (∀ x, x ∈ (diffPassAdded old_slots new_slots old_subs tz entries h).handled
        ↔ (x ∈ h
          ∨ x ∈ (diffPassAdded old_slots new_slots old_subs tz entries h).trace))
      ∧ (diffPassAdded old_slots new_slots old_subs tz entries h).trace.Nodup
      ∧ (∀ x, x ∈ (diffPassAdded old_slots new_slots old_subs tz entries h).trace
        ↔ (x ∉ h ∧ ∃ e ∈ entries, e.submission = x)) := by
  intro entries
  induction entries with
  | nil =>
    intro h
    simp [diffPassAdded]
  | cons e rest ih =>
    intro h
    by_cases hmem : e.submission ∈ h
    · have hred : diffPassAdded old_slots new_slots old_subs tz (e :: rest) h
          = diffPassAdded old_slots new_slots old_subs tz rest h := by
        simp only [diffPassAdded, if_pos hmem]
      rw [hred]
      obtain ⟨ih1, ih2, ih3⟩ := ih h
      refine ⟨ih1, ih2, ?_⟩
      intro x
      rw [ih3 x]
      constructor
      · rintro ⟨hxh, e', he', hx⟩
        exact ⟨hxh, e', List.mem_cons_of_mem e he', hx⟩
      · rintro ⟨hxh, e', he', hx⟩
        rcases List.mem_cons.mp he' with rfl | he'
        · exact absurd (hx ▸ hmem) hxh
        · exact ⟨hxh, e', he', hx⟩
    · have hh : (diffPassAdded old_slots new_slots old_subs tz (e :: rest) h).handled
          = (diffPassAdded old_slots new_slots old_subs tz rest
            (e.submission :: h)).handled := by
        simp only [diffPassAdded, if_neg hmem]
        by_cases hin : e.submission ∈ old_subs
        · simp only [if_pos hin]
        · simp only [if_neg hin]
      have ht : (diffPassAdded old_slots new_slots old_subs tz (e :: rest) h).trace
          = e.submission :: (diffPassAdded old_slots new_slots old_subs tz rest
            (e.submission :: h)).trace := by
        simp only [diffPassAdded, if_neg hmem]
        by_cases hin : e.submission ∈ old_subs
        · simp only [if_pos hin]
        · simp only [if_neg hin]
      obtain ⟨ih1, ih2, ih3⟩ := ih (e.submission :: h)
      rw [hh, ht]
      refine ⟨?_, ?_, ?_⟩
      · intro x
        rw [ih1 x]
        constructor
        · rintro (hx | hx)
          · rcases List.mem_cons.mp hx with rfl | hx
            · exact Or.inr (List.mem_cons_self _ _)
            · exact Or.inl hx
          · exact Or.inr (List.mem_cons_of_mem _ hx)
        · rintro (hx | hx)
          · exact Or.inl (List.mem_cons_of_mem _ hx)
          · rcases List.mem_cons.mp hx with rfl | hx
            · exact Or.inl (List.mem_cons_self _ _)
            · exact Or.inr hx
      · refine List.nodup_cons.mpr ⟨?_, ih2⟩
        intro hc
        exact ((ih3 e.submission).mp hc).1 (List.mem_cons_self _ _)
      · intro x
        constructor
        · intro hx
          rcases List.mem_cons.mp hx with rfl | hx
          · exact ⟨hmem, e, List.mem_cons_self _ _, rfl⟩
          · obtain ⟨hxh, e', he', hes⟩ := (ih3 x).mp hx
            exact ⟨fun hc => hxh (List.mem_cons_of_mem _ hc), e',
              List.mem_cons_of_mem _ he', hes⟩
        · rintro ⟨hxh, e', he', hes⟩
          rcases List.mem_cons.mp he' with rfl | he'
          · rw [← hes]
            exact List.mem_cons_self _ _
          · by_cases hxe : x = e.submission
            · rw [hxe]
              exact List.mem_cons_self _ _
            · refine List.mem_cons_of_mem _ ((ih3 x).mpr ⟨?_, e', he', hes⟩)
              intro hc
              rcases List.mem_cons.mp hc with hc | hc
              · exact hxe hc
              · exact hxh hc

/-- C9: during a comparison, every submission appearing in the symmetric
difference of the two structural slot sets is classified exactly once — the
trace of classification calls has no duplicates (so the removed-side and
added-side passes never both classify the same submission) and covers
exactly the submissions of the symmetric difference. -/
theorem claim_c9_handled_once (st : Store) (sched prev : Schedule)
    (hp : previous_schedule st sched = some prev) :
    (compareTrace st sched).Nodup
    ∧ ∀ x, x ∈ compareTrace st sched
        ↔ ∃ e ∈ removedEntries st prev sched ++ addedEntries st prev sched,
            e.submission = x := by
  have hct : compareTrace st sched
      = (diffPassRemoved (scheduled_talks st prev) (scheduled_talks st sched)
          ((scheduled_talks st sched).map (fun s => s.submission.id))
          (tzOf st sched) (removedEntries st prev sched) []).trace
        ++ (diffPassAdded (scheduled_talks st prev) (scheduled_talks st sched)
          ((scheduled_talks st prev).map (fun s => s.submission.id))
          (tzOf st sched) (addedEntries st prev sched)
          (diffPassRemoved (scheduled_talks st prev) (scheduled_talks st sched)
            ((scheduled_talks st sched).map (fun s => s.submission.id))
            (tzOf st sched) (removedEntries st prev sched) []).handled).trace := by
    simp only [compareTrace, compareCore, hp]
  obtain ⟨p1h, p1nd, p1t⟩ := diffPassRemoved_spec (scheduled_talks st prev)
    (scheduled_talks st sched)
    ((scheduled_talks st sched).map (fun s => s.submission.id))
    (tzOf st sched) (removedEntries st prev sched) []
  obtain ⟨p2h, p2nd, p2t⟩ := diffPassAdded_spec (scheduled_talks st prev)
    (scheduled_talks st sched)
    ((scheduled_talks st prev).map (fun s => s.submission.id))
    (tzOf st sched) (addedEntries st prev sched)
    (diffPassRemoved (scheduled_talks st prev) (scheduled_talks st sched)
      ((scheduled_talks st sched).map (fun s => s.submission.id))
      (tzOf st sched) (removedEntries st prev sched) []).handled
  rw [hct]
  constructor
  · refine List.Nodup.append p1nd p2nd ?_
    intro x hx1 hx2
    have hxh := (p2t x).mp hx2
    exact hxh.1 ((p1h x).mpr (Or.inr hx1))
  · intro x
    simp only [List.mem_append]
    constructor
    · rintro (hx | hx)
      · obtain ⟨-, e', he', hes⟩ := (p1t x).mp hx
        exact ⟨e', Or.inl he', hes⟩
      · obtain ⟨-, e', he', hes⟩ := (p2t x).mp hx
        exact ⟨e', Or.inr he', hes⟩
    · rintro ⟨e', he', hes⟩
      rcases he' with he' | he'
      · exact Or.inl ((p1t x).mpr ⟨List.not_mem_nil x, e', he', hes⟩)
      · by_cases hx1 : x ∈ (diffPassRemoved (scheduled_talks st prev)
            (scheduled_talks st sched)
            ((scheduled_talks st sched).map (fun s => s.submission.id))
            (tzOf st sched) (removedEntries st prev sched) []).trace
        · exact Or.inl hx1
        · refine Or.inr ((p2t x).mpr ⟨?_, e', he', hes⟩)
          intro hc
          rcases (p1h x).mp hc with hc | hc
          · exact List.not_mem_nil x hc
          · exact hx1 hc

/-- Witness for C9: in the comparison scenario, submissions 2 (moved) and 3
(new) are each classified exactly once. -/
theorem claim_c9_witness :
    previous_schedule fxStoreC fxSchedX = some fxVers
    ∧ (compareTrace fxStoreC fxSchedX).Nodup
    ∧ ((3 : Nat) ∈ compareTrace fxStoreC fxSchedX
      ↔ ∃ e ∈ removedEntries fxStoreC fxVers fxSchedX
          ++ addedEntries fxStoreC fxVers fxSchedX, e.submission = 3) := by
  have hmain := claim_c9_handled_once fxStoreC fxSchedX fxVers (by decide)
  exact ⟨by decide, hmain.1, hmain.2 3⟩

/-- A slot with a structural counterpart among the submission's new slots is
never in the unmatched-old list. -/
theorem not_mem_specUnmatchedOld (pk : Nat) (oldL newL : List TalkSlot)
    (s : TalkSlot) (hNew : ∃ t ∈ newL, tripleOf t = tripleOf s) :
    s ∉ specUnmatchedOld pk oldL newL := by
  intro hs
  unfold specUnmatchedOld at hs
  have h1 := List.mem_filter.mp hs
  have hall := of_decide_eq_true h1.2
  have h2 := List.mem_filter.mp h1.1
  have hpk : s.submission.id = pk := by simpa using h2.2
  obtain ⟨t, ht, hts⟩ := hNew
  have htpk : t.submission.id = pk := by
    have hsub := congrArg SlotTriple.submission hts
    simp only [tripleOf] at hsub
    rw [hsub, hpk]
  have htmem : t ∈ newL.filter (fun u : TalkSlot => u.submission.id == pk) :=
    List.mem_filter.mpr ⟨ht, by simp [htpk]⟩
  exact hall t htmem hts.symm

/-- A slot with a structural counterpart among the submission's old slots is
never in the unmatched-new list. -/
theorem not_mem_specUnmatchedNew (pk : Nat) (oldL newL : List TalkSlot)
    (s : TalkSlot) (hOld : ∃ t ∈ oldL, tripleOf t = tripleOf s) :
    s ∉ specUnmatchedNew pk oldL newL := by
  intro hs
  unfold specUnmatchedNew at hs
  have h1 := List.mem_filter.mp hs
  have hall := of_decide_eq_true h1.2
  have h2 := List.mem_filter.mp h1.1
  have hpk : s.submission.id = pk := by simpa using h2.2
  obtain ⟨t, ht, hts⟩ := hOld
  have htpk : t.submission.id = pk := by
    have hsub := congrArg SlotTriple.submission hts
    simp only [tripleOf] at hsub
    rw [hsub, hpk]
  have htmem : t ∈ oldL.filter (fun u : TalkSlot => u.submission.id == pk) :=
    List.mem_filter.mpr ⟨ht, by simp [htpk]⟩
  exact hall t htmem hts.symm

/-- Move-matching never emits a slot that has a structural counterpart on
both sides: it is neither classified new nor canceled, and no move pair is
built from it. -/
theorem handle_submission_move_no_unchanged (pk : Nat)
    (oldL newL : List TalkSlot) (tz : String) (s : TalkSlot)
    (hOld : ∃ t ∈ oldL, tripleOf t = tripleOf s)
    (hNew : ∃ t ∈ newL, tripleOf t = tripleOf s) :
    s ∉ (handle_submission_move pk oldL newL tz).1
    ∧ s ∉ (handle_submission_move pk oldL newL tz).2.1
    ∧ ∀ rec ∈ (handle_submission_move pk oldL newL tz).2.2,
        rec.old_slot ≠ s ∧ rec.new_slot ≠ s := by
  have hso := not_mem_specUnmatchedOld pk oldL newL s hNew
  have hsn := not_mem_specUnmatchedNew pk oldL newL s hOld
  have hzip : ∀ (l1 l2 : List TalkSlot),
      l1 ⊆ specUnmatchedOld pk oldL newL → l2 ⊆ specUnmatchedNew pk oldL newL →
      ∀ rec ∈ (l1.zip l2).map (mkMoveRecord tz),
        rec.old_slot ≠ s ∧ rec.new_slot ≠ s := by
    intro l1 l2 hl1 hl2 rec hrec
    obtain ⟨p, hp, rfl⟩ := List.mem_map.mp hrec
    rcases p with ⟨a, b⟩
    obtain ⟨ha, hb⟩ := List.of_mem_zip hp
    constructor
    · intro he
      exact hso (he ▸ hl1 ha)
    · intro he
      exact hsn (he ▸ hl2 hb)
  rw [handle_submission_move_eq]
  by_cases h1 : (specUnmatchedNew pk oldL newL).length
      < (specUnmatchedOld pk oldL newL).length
  · rw [if_pos h1]
    refine ⟨List.not_mem_nil s, ?_, ?_⟩
    · intro hc
      exact hso (List.take_subset _ _ hc)
    · exact hzip _ _ (List.drop_subset _ _) (fun x hx => hx)
  · rw [if_neg h1]
    by_cases h2 : (specUnmatchedOld pk oldL newL).length
        < (specUnmatchedNew pk oldL newL).length
    · rw [if_pos h2]
      refine ⟨?_, List.not_mem_nil s, ?_⟩
      · intro hc
        exact hsn (List.take_subset _ _ hc)
      · exact hzip _ _ (fun x hx => hx) (List.drop_subset _ _)
    · rw [if_neg h2]
      exact ⟨List.not_mem_nil s, List.not_mem_nil s,
        hzip _ _ (fun x hx => hx) (fun x hx => hx)⟩

/-- The removed-side pass never emits a slot whose structural triple is
present on both sides. -/
theorem diffPassRemoved_no_unchanged (old_slots new_slots : List TalkSlot)
    (tz : String) (s : TalkSlot)
    (hOld : ∃ t ∈ old_slots, tripleOf t = tripleOf s)
    (hNew : ∃ t ∈ new_slots, tripleOf t = tripleOf s) :
    ∀ (entries : List SlotTriple) (h : List Nat),
      s ∉ (diffPassRemoved old_slots new_slots
        (new_slots.map (fun u => u.submission.id)) tz entries h).new_talks
      ∧ s ∉ (diffPassRemoved old_slots new_slots
        (new_slots.map (fun u => u.submission.id)) tz entries h).canceled_talks
      ∧ ∀ rec ∈ (diffPassRemoved old_slots new_slots
          (new_slots.map (fun u => u.submission.id)) tz entries h).moved_talks,
          rec.old_slot ≠ s ∧ rec.new_slot ≠ s := by
  intro entries
  induction entries with
  | nil =>
    intro h
    simp [diffPassRemoved]
  | cons e rest ih =>
    intro h
    by_cases hmem : e.submission ∈ h
    · have hred : diffPassRemoved old_slots new_slots
          (new_slots.map (fun u => u.submission.id)) tz (e :: rest) h
          = diffPassRemoved old_slots new_slots
            (new_slots.map (fun u => u.submission.id)) tz rest h := by
        simp only [diffPassRemoved, if_pos hmem]
      rw [hred]
      exact ih h
    · obtain ⟨ihn, ihc, ihm⟩ := ih (e.submission :: h)
      by_cases hin : e.submission ∈ new_slots.map (fun u => u.submission.id)
      · have hn : (diffPassRemoved old_slots new_slots
            (new_slots.map (fun u => u.submission.id)) tz (e :: rest) h).new_talks
            = (handle_submission_move e.submission old_slots new_slots tz).1
              ++ (diffPassRemoved old_slots new_slots
                (new_slots.map (fun u => u.submission.id)) tz rest
                (e.submission :: h)).new_talks := by
          simp only [diffPassRemoved, if_neg hmem, if_pos hin]
        have hc : (diffPassRemoved old_slots new_slots
            (new_slots.map (fun u => u.submission.id)) tz (e :: rest) h).canceled_talks
            = (handle_submission_move e.submission old_slots new_slots tz).2.1
              ++ (diffPassRemoved old_slots new_slots
                (new_slots.map (fun u => u.submission.id)) tz rest
                (e.submission :: h)).canceled_talks := by
          simp only [diffPassRemoved, if_neg hmem, if_pos hin]
        have hm : (diffPassRemoved old_slots new_slots
            (new_slots.map (fun u => u.submission.id)) tz (e :: rest) h).moved_talks
            = (handle_submission_move e.submission old_slots new_slots tz).2.2
              ++ (diffPassRemoved old_slots new_slots
                (new_slots.map (fun u => u.submission.id)) tz rest
                (e.submission :: h)).moved_talks := by
          simp only [diffPassRemoved, if_neg hmem, if_pos hin]
        obtain ⟨hcn, hcc, hcm⟩ := handle_submission_move_no_unchanged
          e.submission old_slots new_slots tz s hOld hNew
        refine ⟨?_, ?_, ?_⟩
        · rw [hn]
          intro hx
          rcases List.mem_append.mp hx with hx | hx
          · exact hcn hx
          · exact ihn hx
        · rw [hc]
          intro hx
          rcases List.mem_append.mp hx with hx | hx
          · exact hcc hx
          · exact ihc hx
        · rw [hm]
          intro rec hrec
          rcases List.mem_append.mp hrec with hrec | hrec
          · exact hcm rec hrec
          · exact ihm rec hrec
      · have hn : (diffPassRemoved old_slots new_slots
            (new_slots.map (fun u => u.submission.id)) tz (e :: rest) h).new_talks
            = (diffPassRemoved old_slots new_slots
              (new_slots.map (fun u => u.submission.id)) tz rest
              (e.submission :: h)).new_talks := by
          simp only [diffPassRemoved, if_neg hmem, if_neg hin]
        have hc : (diffPassRemoved old_slots new_slots
            (new_slots.map (fun u => u.submission.id)) tz (e :: rest) h).canceled_talks
            = old_slots.filter (fun u => u.submission.id == e.submission)
              ++ (diffPassRemoved old_slots new_slots
                (new_slots.map (fun u => u.submission.id)) tz rest
                (e.submission :: h)).canceled_talks := by
          simp only [diffPassRemoved, if_neg hmem, if_neg hin]
        have hm : (diffPassRemoved old_slots new_slots
            (new_slots.map (fun u => u.submission.id)) tz (e :: rest) h).moved_talks
            = (diffPassRemoved old_slots new_slots
              (new_slots.map (fun u => u.submission.id)) tz rest
              (e.submission :: h)).moved_talks := by
          simp only [diffPassRemoved, if_neg hmem, if_neg hin]
        refine ⟨by rw [hn]; exact ihn, ?_, by rw [hm]; exact ihm⟩
        rw [hc]
        intro hx
        rcases List.mem_append.mp hx with hx | hx
        · have hsubm : s.submission.id = e.submission := by
            simpa using (List.mem_filter.mp hx).2
          obtain ⟨t, ht, hts⟩ := hNew
          have htpk : t.submission.id = e.submission := by
            have hsub := congrArg SlotTriple.submission hts
            simp only [tripleOf] at hsub
            rw [hsub, hsubm]
          exact hin (List.mem_map.mpr ⟨t, ht, htpk⟩)
        · exact ihc hx

/-- The added-side pass never emits a slot whose structural triple is
present on both sides. -/
theorem diffPassAdded_no_unchanged (old_slots new_slots : List TalkSlot)
    (tz : String) (s : TalkSlot)
    (hOld : ∃ t ∈ old_slots, tripleOf t = tripleOf s)
    (hNew : ∃ t ∈ new_slots, tripleOf t = tripleOf s) :
    ∀ (entries : List SlotTriple) (h : List Nat),
      s ∉ (diffPassAdded old_slots new_slots
        (old_slots.map (fun u => u.submission.id)) tz entries h).new_talks
      ∧ s ∉ (diffPassAdded old_slots new_slots
        (old_slots.map (fun u => u.submission.id)) tz entries h).canceled_talks
      ∧ ∀ rec ∈ (diffPassAdded old_slots new_slots
          (old_slots.map (fun u => u.submission.id)) tz entries h).moved_talks,
          rec.old_slot ≠ s ∧ rec.new_slot ≠ s := by
  intro entries
  induction entries with
  | nil =>
    intro h
    simp [diffPassAdded]
  | cons e rest ih =>
    intro h
    by_cases hmem : e.submission ∈ h
    · have hred : diffPassAdded old_slots new_slots
          (old_slots.map (fun u => u.submission.id)) tz (e :: rest) h
          = diffPassAdded old_slots new_slots
            (old_slots.map (fun u => u.submission.id)) tz rest h := by
        simp only [diffPassAdded, if_pos hmem]
      rw [hred]
      exact ih h
    · obtain ⟨ihn, ihc, ihm⟩ := ih (e.submission :: h)
      by_cases hin : e.submission ∈ old_slots.map (fun u => u.submission.id)
      · have hn : (diffPassAdded old_slots new_slots
            (old_slots.map (fun u => u.submission.id)) tz (e :: rest) h).new_talks
            = (handle_submission_move e.submission old_slots new_slots tz).1
              ++ (diffPassAdded old_slots new_slots
                (old_slots.map (fun u => u.submission.id)) tz rest
                (e.submission :: h)).new_talks := by
          simp only [diffPassAdded, if_neg hmem, if_pos hin]
        have hc : (diffPassAdded old_slots new_slots
            (old_slots.map (fun u => u.submission.id)) tz (e :: rest) h).canceled_talks
            = (handle_submission_move e.submission old_slots new_slots tz).2.1
              ++ (diffPassAdded old_slots new_slots
                (old_slots.map (fun u => u.submission.id)) tz rest
                (e.submission :: h)).canceled_talks := by
          simp only [diffPassAdded, if_neg hmem, if_pos hin]
        have hm : (diffPassAdded old_slots new_slots
            (old_slots.map (fun u => u.submission.id)) tz (e :: rest) h).moved_talks
            = (handle_submission_move e.submission old_slots new_slots tz).2.2
              ++ (diffPassAdded old_slots new_slots
                (old_slots.map (fun u => u.submission.id)) tz rest
                (e.submission :: h)).moved_talks := by
          simp only [diffPassAdded, if_neg hmem, if_pos hin]
        obtain ⟨hcn, hcc, hcm⟩ := handle_submission_move_no_unchanged
          e.submission old_slots new_slots tz s hOld hNew
        refine ⟨?_, ?_, ?_⟩
        · rw [hn]
          intro hx
          rcases List.mem_append.mp hx with hx | hx
          · exact hcn hx
          · exact ihn hx
        · rw [hc]
          intro hx
          rcases List.mem_append.mp hx with hx | hx
          · exact hcc hx
          · exact ihc hx
        · rw [hm]
          intro rec hrec
          rcases List.mem_append.mp hrec with hrec | hrec
          · exact hcm rec hrec
          · exact ihm rec hrec
      · have hn : (diffPassAdded old_slots new_slots
            (old_slots.map (fun u => u.submission.id)) tz (e :: rest) h).new_talks
            = new_slots.filter (fun u => u.submission.id == e.submission)
              ++ (diffPassAdded old_slots new_slots
                (old_slots.map (fun u => u.submission.id)) tz rest
                (e.submission :: h)).new_talks := by
          simp only [diffPassAdded, if_neg hmem, if_neg hin]
        have hc : (diffPassAdded old_slots new_slots
            (old_slots.map (fun u => u.submission.id)) tz (e :: rest) h).canceled_talks
            = (diffPassAdded old_slots new_slots
              (old_slots.map (fun u => u.submission.id)) tz rest
              (e.submission :: h)).canceled_talks := by
          simp only [diffPassAdded, if_neg hmem, if_neg hin]
        have hm : (diffPassAdded old_slots new_slots
            (old_slots.map (fun u => u.submission.id)) tz (e :: rest) h).moved_talks
            = (diffPassAdded old_slots new_slots
              (old_slots.map (fun u => u.submission.id)) tz rest
              (e.submission :: h)).moved_talks := by
          simp only [diffPassAdded, if_neg hmem, if_neg hin]
        refine ⟨?_, by rw [hc]; exact ihc, by rw [hm]; exact ihm⟩
        rw [hn]
        intro hx
        rcases List.mem_append.mp hx with hx | hx
        · have hsubm : s.submission.id = e.submission := by
            simpa using (List.mem_filter.mp hx).2
          obtain ⟨t, ht, hts⟩ := hOld
          have htpk : t.submission.id = e.submission := by
            have hsub := congrArg SlotTriple.submission hts
            simp only [tripleOf] at hsub
            rw [hsub, hsubm]
          exact hin (List.mem_map.mpr ⟨t, ht, htpk⟩)
        · exact ihn hx

/-- C6: a slot whose `(submission, room, start)` triple is present in both
the old and the new scheduled set produces no diff entry — it is in neither
`new_talks` nor `canceled_talks`, and no move record is built from it; and
comparing against a structurally identical predecessor yields empty lists
and count 0. -/
theorem claim_c6_unchanged_ignored (st : Store) (sched prev : Schedule)
    (hp : previous_schedule st sched = some prev) :
    (∀ s : TalkSlot,
      tripleOf s ∈ (scheduled_talks st prev).map tripleOf →
      tripleOf s ∈ (scheduled_talks st sched).map tripleOf →
      s ∉ (compare_schedule_with_predecessor st sched).new_talks
      ∧ s ∉ (compare_schedule_with_predecessor st sched).canceled_talks
      ∧ ∀ rec ∈ (compare_schedule_with_predecessor st sched).moved_talks,
          rec.old_slot ≠ s ∧ rec.new_slot ≠ s)
    ∧ ((∀ t : SlotTriple, t ∈ (scheduled_talks st prev).map tripleOf
        ↔ t ∈ (scheduled_talks st sched).map tripleOf) →
      compare_schedule_with_predecessor st sched
        = ⟨0, "update", [], [], []⟩) := by
  constructor
  · intro s hOldT hNewT
    have hOld : ∃ t ∈ scheduled_talks st prev, tripleOf t = tripleOf s := by
      simpa using List.mem_map.mp hOldT
    have hNew : ∃ t ∈ scheduled_talks st sched, tripleOf t = tripleOf s := by
      simpa using List.mem_map.mp hNewT
    obtain ⟨r1n, r1c, r1m⟩ := diffPassRemoved_no_unchanged
      (scheduled_talks st prev) (scheduled_talks st sched) (tzOf st sched) s
      hOld hNew (removedEntries st prev sched) []
    obtain ⟨r2n, r2c, r2m⟩ := diffPassAdded_no_unchanged
      (scheduled_talks st prev) (scheduled_talks st sched) (tzOf st sched) s
      hOld hNew (addedEntries st prev sched)
      (diffPassRemoved (scheduled_talks st prev) (scheduled_talks st sched)
        ((scheduled_talks st sched).map (fun u => u.submission.id))
        (tzOf st sched) (removedEntries st prev sched) []).handled
    have hN : (compare_schedule_with_predecessor st sched).new_talks
        = (diffPassRemoved (scheduled_talks st prev) (scheduled_talks st sched)
            ((scheduled_talks st sched).map (fun u => u.submission.id))
            (tzOf st sched) (removedEntries st prev sched) []).new_talks
          ++ (diffPassAdded (scheduled_talks st prev) (scheduled_talks st sched)
            ((scheduled_talks st prev).map (fun u => u.submission.id))
            (tzOf st sched) (addedEntries st prev sched)
            (diffPassRemoved (scheduled_talks st prev) (scheduled_talks st sched)
              ((scheduled_talks st sched).map (fun u => u.submission.id))
              (tzOf st sched) (removedEntries st prev sched) []).handled).new_talks := by
      simp only [compare_schedule_with_predecessor, compareCore, hp]
    have hC : (compare_schedule_with_predecessor st sched).canceled_talks
        = (diffPassRemoved (scheduled_talks st prev) (scheduled_talks st sched)
            ((scheduled_talks st sched).map (fun u => u.submission.id))
            (tzOf st sched) (removedEntries st prev sched) []).canceled_talks
          ++ (diffPassAdded (scheduled_talks st prev) (scheduled_talks st sched)
            ((scheduled_talks st prev).map (fun u => u.submission.id))
            (tzOf st sched) (addedEntries st prev sched)
            (diffPassRemoved (scheduled_talks st prev) (scheduled_talks st sched)
              ((scheduled_talks st sched).map (fun u => u.submission.id))
              (tzOf st sched) (removedEntries st prev sched) []).handled).canceled_talks := by
      simp only [compare_schedule_with_predecessor, compareCore, hp]
    have hM : (compare_schedule_with_predecessor st sched).moved_talks
        = (diffPassRemoved (scheduled_talks st prev) (scheduled_talks st sched)
            ((scheduled_talks st sched).map (fun u => u.submission.id))
            (tzOf st sched) (removedEntries st prev sched) []).moved_talks
          ++ (diffPassAdded (scheduled_talks st prev) (scheduled_talks st sched)
            ((scheduled_talks st prev).map (fun u => u.submission.id))
            (tzOf st sched) (addedEntries st prev sched)
            (diffPassRemoved (scheduled_talks st prev) (scheduled_talks st sched)
              ((scheduled_talks st sched).map (fun u => u.submission.id))
              (tzOf st sched) (removedEntries st prev sched) []).handled).moved_talks := by
      simp only [compare_schedule_with_predecessor, compareCore, hp]
    refine ⟨?_, ?_, ?_⟩
    · rw [hN]
      intro hx
      rcases List.mem_append.mp hx with hx | hx
      · exact r1n hx
      · exact r2n hx
    · rw [hC]
      intro hx
      rcases List.mem_append.mp hx with hx | hx
      · exact r1c hx
      · exact r2c hx
    · rw [hM]
      intro rec hrec
      rcases List.mem_append.mp hrec with hrec | hrec
      · exact r1m rec hrec
      · exact r2m rec hrec
  · intro hiff
    have hrem : removedEntries st prev sched = [] := by
      apply List.filter_eq_nil_iff.mpr
      intro t ht
      have htm : t ∈ ((scheduled_talks st sched).map tripleOf).dedup :=
        List.mem_dedup.mpr ((hiff t).mp (List.mem_dedup.mp ht))
      simp [htm]
    have hadd : addedEntries st prev sched = [] := by
      apply List.filter_eq_nil_iff.mpr
      intro t ht
      have htm : t ∈ ((scheduled_talks st prev).map tripleOf).dedup :=
        List.mem_dedup.mpr ((hiff t).mpr (List.mem_dedup.mp ht))
      simp [htm]
    simp only [compare_schedule_with_predecessor, compareCore, hp, hrem, hadd,
      diffPassRemoved, diffPassAdded]
    rfl

/-- Witness for C6: in the comparison scenario, submission 1's unchanged
placement (room 1 at 10:00) is present in both versions and appears nowhere
in the diff. -/
theorem claim_c6_witness :
    previous_schedule fxStoreC fxSchedX = some fxVers
    ∧ tripleOf (fxSlot 3 2 1 1 10)
        ∈ (scheduled_talks fxStoreC fxVers).map tripleOf
    ∧ tripleOf (fxSlot 3 2 1 1 10)
        ∈ (scheduled_talks fxStoreC fxSchedX).map tripleOf
    ∧ (fxSlot 3 2 1 1 10
        ∉ (compare_schedule_with_predecessor fxStoreC fxSchedX).new_talks
      ∧ fxSlot 3 2 1 1 10
        ∉ (compare_schedule_with_predecessor fxStoreC fxSchedX).canceled_talks
      ∧ ∀ rec ∈ (compare_schedule_with_predecessor fxStoreC fxSchedX).moved_talks,
          rec.old_slot ≠ fxSlot 3 2 1 1 10
          ∧ rec.new_slot ≠ fxSlot 3 2 1 1 10) := by
  refine ⟨by decide, by decide, by decide, ?_⟩
  exact (claim_c6_unchanged_ignored fxStoreC fxSchedX fxVers (by decide)).1
    (fxSlot 3 2 1 1 10) (by decide) (by decide)

/-- Folding the `create` appends over the new talks yields, pointwise, the
incoming entry extended with the speaker's new talks in list order. -/
theorem foldl_create_apply (l : List TalkSlot) (m : Nat → SpeakerNote) (sp : Nat) :
    (l.foldl (fun m talk => fun sp =>
      if talk.submission.speakers.contains sp then
        ⟨(m sp).create ++ [talk], (m sp).update⟩
      else m sp) m) sp
    = ⟨(m sp).create ++ l.filter (fun talk => talk.submission.speakers.contains sp),
       (m sp).update⟩ := by
  induction l generalizing m with
  | nil => simp
  | cons t rest ih =>
    simp only [List.foldl_cons, List.filter_cons]
    rw [ih]
    by_cases hsp : sp ∈ t.submission.speakers
    · simp [hsp]
    · simp [hsp]

/-- Folding the `update` appends over the move records yields, pointwise,
the incoming entry extended with the speaker's move records in list order. -/
theorem foldl_update_apply (l : List MoveRecord) (m : Nat → SpeakerNote) (sp : Nat) :
    (l.foldl (fun m mv => fun sp =>
      if mv.submission.speakers.contains sp then
        ⟨(m sp).create, (m sp).update ++ [mv]⟩
      else m sp) m) sp
    = ⟨(m sp).create,
       (m sp).update ++ l.filter (fun mv => mv.submission.speakers.contains sp)⟩ := by
  induction l generalizing m with
  | nil => simp
  | cons t rest ih =>
    simp only [List.foldl_cons, List.filter_cons]
    rw [ih]
    by_cases hsp : sp ∈ t.submission.speakers
    · simp [hsp]
    · simp [hsp]

/-- The incremental mapping construction evaluates, for each speaker, to the
filters of the new-talk and move lists by speaker membership, in append
order. -/
theorem build_speaker_changes_apply (ch : ChangeSet) (sp : Nat) :
    build_speaker_changes ch sp
      = ⟨ch.new_talks.filter (fun t => t.submission.speakers.contains sp),
         ch.moved_talks.filter (fun r => r.submission.speakers.contains sp)⟩ := by
  simp only [build_speaker_changes]
  rw [foldl_update_apply, foldl_create_apply]
  simp

/-- C8: for an `update` change-set in which the cancellation count equals
the total change count, the notification builder returns the empty mapping;
otherwise it maps each speaker to the new talks under `create` and the move
records under `update`, preserving append order. -/
theorem claim_c8_notifications (st : Store) (sched : Schedule)
    (ha : (compare_schedule_with_predecessor st sched).action = "update") :
    ((compare_schedule_with_predecessor st sched).count
        = (compare_schedule_with_predecessor st sched).canceled_talks.length →
      ∀ sp, speakers_with_changed_slots st sched sp = ⟨[], []⟩)
    ∧ ((compare_schedule_with_predecessor st sched).count
        ≠ (compare_schedule_with_predecessor st sched).canceled_talks.length →
      ∀ sp, speakers_with_changed_slots st sched sp
        = ⟨(compare_schedule_with_predecessor st sched).new_talks.filter
            (fun t => t.submission.speakers.contains sp),
          (compare_schedule_with_predecessor st sched).moved_talks.filter
            (fun r => r.submission.speakers.contains sp)⟩) := by
  have hac : (("update" : String) == "create") = false := by decide
  constructor
  · intro hcnt sp
    have hb : ((compare_schedule_with_predecessor st sched).count
        == (compare_schedule_with_predecessor st sched).canceled_talks.length)
        = true := beq_iff_eq.mpr hcnt
    simp only [speakers_with_changed_slots, ha, hac, hb, Bool.false_eq_true,
      if_false, if_true]
  · intro hcnt sp
    have hb : ((compare_schedule_with_predecessor st sched).count
        == (compare_schedule_with_predecessor st sched).canceled_talks.length)
        = false := by
      cases hx : ((compare_schedule_with_predecessor st sched).count
          == (compare_schedule_with_predecessor st sched).canceled_talks.length)
      · rfl
      · exact absurd (beq_iff_eq.mp hx) hcnt
    simp only [speakers_with_changed_slots, ha, hac, hb, Bool.false_eq_true,
      if_false]
    exact build_speaker_changes_apply _ sp

/-- Witness for C8: in the comparison scenario (one new talk, one move, no
cancellation), speaker 102 of the moved submission 2 receives exactly the
matching entries. -/
theorem claim_c8_witness :
    (compare_schedule_with_predecessor fxStoreC fxSchedX).action = "update"
    ∧ (compare_schedule_with_predecessor fxStoreC fxSchedX).count
        ≠ (compare_schedule_with_predecessor fxStoreC fxSchedX).canceled_talks.length
    ∧ speakers_with_changed_slots fxStoreC fxSchedX 102
        = ⟨(compare_schedule_with_predecessor fxStoreC fxSchedX).new_talks.filter
            (fun t => t.submission.speakers.contains 102),
          (compare_schedule_with_predecessor fxStoreC fxSchedX).moved_talks.filter
            (fun r => r.submission.speakers.contains 102)⟩ := by
  refine ⟨by decide, by decide, ?_⟩
  exact (claim_c8_notifications fxStoreC fxSchedX (by decide)).2 (by decide) 102

/-- Witness for C1 at the spec's multi-session scenario: two old slots at
9:00 and 14:00, one unchanged new slot at 9:00 — the surplus 14:00 slot is
canceled and nothing moves. -/
theorem claim_c1_witness :
    (specUnmatchedNew 4 [fxSlot 1 1 4 1 9, fxSlot 2 1 4 1 14]
        [fxSlot 3 2 4 1 9]).length
      < (specUnmatchedOld 4 [fxSlot 1 1 4 1 9, fxSlot 2 1 4 1 14]
        [fxSlot 3 2 4 1 9]).length
    ∧ handle_submission_move 4 [fxSlot 1 1 4 1 9, fxSlot 2 1 4 1 14]
        [fxSlot 3 2 4 1 9] "UTC" = ([], [fxSlot 2 1 4 1 14], []) := by
  refine ⟨by decide, ?_⟩
  have h := (claim_c1_move_matching 4 [fxSlot 1 1 4 1 9, fxSlot 2 1 4 1 14]
    [fxSlot 3 2 4 1 9] "UTC").1 (by decide)
  rw [h]
  decide

/-- Copying a batch of slots into a target schedule preserves their content
(submission, room, start, end, visibility). -/
theorem copies_map_slotContent (l : List TalkSlot) (w b : Nat) :
    ((l.enum.map (fun p => TalkSlot.copy_to_schedule p.2 w (b + p.1))).map
      slotContent) = l.map slotContent := by
  rw [List.map_map]
  have h1 : (slotContent ∘ fun p : Nat × TalkSlot =>
      TalkSlot.copy_to_schedule p.2 w (b + p.1))
      = (slotContent ∘ Prod.snd) := rfl
  rw [h1, ← List.map_map, List.enum_map_snd]

/-- Every slot produced by a batch copy is owned by the target schedule. -/
theorem copies_schedule (l : List TalkSlot) (w b : Nat) :
    ∀ c ∈ l.enum.map (fun p => TalkSlot.copy_to_schedule p.2 w (b + p.1)),
      c.schedule = w := by
  intro c hc
  obtain ⟨p, hp, rfl⟩ := List.mem_map.mp hc
  rfl

/-- C4: for a versioned schedule, unfreeze returns that schedule unchanged
together with a fresh working draft whose slots are exactly copies of — in
order — the old draft's slots for submissions not already in the versioned
schedule, followed by all the versioned schedule's slots; the old draft and
its slots are gone. Freshness side conditions: no existing slot is owned by
the fresh draft id, and the fresh draft id differs from the old draft's. -/
theorem claim_c4_unfreeze (st : Store) (self : Schedule)
    (wipId slotIdBase : Nat) (oldWip : Schedule)
    (hver : versionTruthy self.version = true)
    (hwip : event_wip_schedule st self.event = some oldWip)
    (hfresh : ∀ s ∈ st.slots, s.schedule ≠ wipId)
    (hid : wipId ≠ oldWip.id) :
    (unfreeze st self wipId slotIdBase).2
      = Except.ok (self, ⟨wipId, self.event, none, none⟩)
    ∧ ((unfreeze st self wipId slotIdBase).1.slots.filter
        (fun s => s.schedule == wipId)).map slotContent
      = ((talksOf st oldWip.id).filter
          (fun s => !(((talksOf st self.id).map
            (fun x => x.submission.id)).contains s.submission.id))
        ++ talksOf st self.id).map slotContent
    ∧ (∀ s ∈ (unfreeze st self wipId slotIdBase).1.slots,
        s.schedule ≠ oldWip.id)
    ∧ oldWip ∉ (unfreeze st self wipId slotIdBase).1.schedules := by
  have hnv : (!(versionTruthy self.version)) = false := by rw [hver]; rfl
  unfold unfreeze
  rw [hnv, hwip]
  simp only [Bool.false_eq_true, if_false]
  set talks := (talksOf st oldWip.id).filter
      (fun s => !(((talksOf st self.id).map
        (fun x => x.submission.id)).contains s.submission.id))
    ++ talksOf st self.id with htalks
  set copies := talks.enum.map
    (fun p => TalkSlot.copy_to_schedule p.2 wipId (slotIdBase + p.1)) with hcopies
  refine ⟨by trivial, ?_, ?_, ?_⟩
  · have hsplit : ((st.slots ++ copies).filter
        (fun s => !(s.schedule == oldWip.id))).filter
        (fun s => s.schedule == wipId)
        = copies := by
      rw [List.filter_filter, List.filter_append]
      have h0 : st.slots.filter
          (fun s => (s.schedule == wipId) && !(s.schedule == oldWip.id)) = [] := by
        apply List.filter_eq_nil_iff.mpr
        intro s hs
        have := hfresh s hs
        simp [this]
      have h1 : copies.filter
          (fun s => (s.schedule == wipId) && !(s.schedule == oldWip.id))
          = copies := by
        apply List.filter_eq_self.mpr
        intro c hc
        have hcs := copies_schedule talks wipId slotIdBase c hc
        simp [hcs, hid]
      rw [h0, h1, List.nil_append]
    calc (((st.slots ++ copies).filter
          (fun s => !(s.schedule == oldWip.id))).filter
          (fun s => s.schedule == wipId)).map slotContent
        = copies.map slotContent := by rw [hsplit]
      _ = talks.map slotContent := copies_map_slotContent talks wipId slotIdBase
  · intro s hs
    have := List.of_mem_filter hs
    simpa using this
  · intro hmem
    have := List.of_mem_filter hmem
    simp at this

/-- Witness for C4: unfreezing `fxStoreU`'s released schedule keeps the
draft-only submission 5, restores the released slots, and deletes the old
draft. -/
theorem claim_c4_witness :
    versionTruthy fxVers.version = true
    ∧ event_wip_schedule fxStoreU fxVers.event = some fxDraft
    ∧ (∀ s ∈ fxStoreU.slots, s.schedule ≠ 8)
    ∧ (8 : Nat) ≠ fxDraft.id
    ∧ ((unfreeze fxStoreU fxVers 8 200).2
        = Except.ok (fxVers, ⟨8, fxVers.event, none, none⟩)
      ∧ ((unfreeze fxStoreU fxVers 8 200).1.slots.filter
          (fun s => s.schedule == 8)).map slotContent
        = ((talksOf fxStoreU fxDraft.id).filter
            (fun s => !(((talksOf fxStoreU fxVers.id).map
              (fun x => x.submission.id)).contains s.submission.id))
          ++ talksOf fxStoreU fxVers.id).map slotContent
      ∧ (∀ s ∈ (unfreeze fxStoreU fxVers 8 200).1.slots,
          s.schedule ≠ fxDraft.id)
      ∧ fxDraft ∉ (unfreeze fxStoreU fxVers 8 200).1.schedules) := by
  refine ⟨by decide, by decide, by decide, by decide, ?_⟩
  exact claim_c4_unfreeze fxStoreU fxVers 8 200 fxDraft
    (by decide) (by decide) (by decide) (by decide)

/-- Witness for C7: a store holding a lone working draft has no predecessor
and compares to a bare `create` change-set. -/
theorem claim_c7_witness :
    previous_schedule fxStore0 fxSched0 = none
    ∧ compare_schedule_with_predecessor fxStore0 fxSched0
        = ⟨0, "create", [], [], []⟩ :=
  ⟨rfl, claim_c7_first_release fxStore0 fxSched0 rfl⟩

end Pretalx
